import Mathlib

/-!
# Verification of the Pourbaix diagram generator (`main.py`)

Shallow embedding of the orchestration script `main.py`.  The script reads
and writes files under two fixed directories, fetches entry collections
from a remote API, serializes them as JSON, and renders a diagram image.

The embedding models the observable state of a run as `SysState`:
* `dirs`    — the directories that exist on disk (the script never creates
              directories, it only opens files inside them);
* `files`   — an association list from path to file content;
* `fetchCalls` — the log of remote-fetch invocations (`retrieve_pourbaix_entries`),
              in call order;
* `stdout`  — the lines printed so far.

External collaborators (the Materials Project API, pymatgen's
`PourbaixEntry.as_dict`/`from_dict`, Python's `json.dumps`/`json.loads`,
and matplotlib's rendering) are opaque to the script, so they enter the
embedding as function parameters (`fetch`, `as_dict`, `from_dict`,
`dumps`, `loads`, `render`).  Python floats produced by the literal
arithmetic in `main` (`1 / n_compounds`, `1e-8`, `1.0`) are modelled as
exact rationals.

The `compounds` list is hardcoded in the source of `main` (the module
docstring instructs the user to edit it); the embedding exposes it as the
parameter of `main`, since every property quantifies over that caller
supplied list.
-/

namespace Pourbaix

/-- `JSON_ENTRIES_DIR` constant of main.py (line 23). -/
def JSON_ENTRIES_DIR : String := "pourbaix_entries"

/-- `DIAGRAMS_DIR` constant of main.py (line 24). -/
def DIAGRAMS_DIR : String := "pourbaix_diagrams"

/-- The cache path used throughout main.py: the f-string
`f'{JSON_ENTRIES_DIR}/{compound}.json'`. -/
def entriesPath (compound : String) : String :=
  JSON_ENTRIES_DIR ++ "/" ++ compound ++ ".json"

/-- The directory part of a path: everything before the final `/`
(the directory `open` needs in order to create the file). -/
def dirOf (p : String) : String :=
  String.mk (((p.data.reverse.dropWhile (fun ch => ch ≠ '/')).drop 1).reverse)

/-- Lookup in an association list keyed by path/identifier strings. -/
def lookupA {β : Type} : List (String × β) → String → Option β
  | [], _ => none
  | (q, v) :: rest, k => if q = k then some v else lookupA rest k

/-- Store a value under a key: overwrite the existing binding in place if the
key is present (Python `dict` update / `open(..., 'w')` truncating an existing
file), otherwise append a fresh binding. -/
def insertA {β : Type} (d : List (String × β)) (k : String) (v : β) :
    List (String × β) :=
  match lookupA d k with
  | some _ => d.map (fun p => if p.1 = k then (k, v) else p)
  | none => d ++ [(k, v)]

/-- Number of bindings an association list holds for key `k`. -/
def countA {β : Type} (d : List (String × β)) (k : String) : Nat :=
  (d.filter (fun p => p.1 = k)).length

/-- Observable state of one run of the script. -/
structure SysState where
  dirs : List String
  files : List (String × String)
  fetchCalls : List String
  stdout : List String
deriving DecidableEq

/-- Python `glob.glob` on the literal (wildcard-free) pattern the script
builds: returns the singleton match when the file exists, and the empty
list otherwise — also, silently, when the directory itself is missing. -/
def glob_glob (st : SysState) (pattern : String) : List String :=
  match lookupA st.files pattern with
  | some _ => [pattern]
  | none => []

/-- Python `open(path, 'w')` followed by a full write: requires the parent
directory to exist (else `FileNotFoundError`), then creates or truncates the
file.  The script never creates directories. -/
def openWrite (st : SysState) (path content : String) : Except String SysState :=
  if dirOf path ∈ st.dirs then
    .ok { st with files := insertA st.files path content }
  else .error "FileNotFoundError"

/-- Python `open(path, 'r')` followed by a full read: `FileNotFoundError`
when the file (or its directory) is absent. -/
def openRead (st : SysState) (path : String) : Except String String :=
  match lookupA st.files path with
  | some content => .ok content
  | none => .error "FileNotFoundError"

variable {Entry Dict : Type}

/-- `retrieve_pourbaix_entries` (main.py lines 83-101): queries the remote
API for one element.  The query itself is external (`fetch`); the embedding
records the call in `fetchCalls`. -/
def retrieve_pourbaix_entries (fetch : String → List Entry) (st : SysState)
    (compound : String) : SysState × List Entry :=
  ({ st with fetchCalls := st.fetchCalls ++ [compound] }, fetch compound)

/-- `save_pourbaix_entries` (main.py lines 104-119): serializes each entry
with `as_dict`, dumps the resulting list as JSON text, and writes it to
`JSON_ENTRIES_DIR/<compound>.json`. -/
def save_pourbaix_entries (as_dict : Entry → Dict) (dumps : List Dict → String)
    (st : SysState) (compound : String) (entries : List Entry) :
    Except String SysState :=
  openWrite st (entriesPath compound) (dumps (entries.map as_dict))

/-- `get_stored_pourbaix_entries` (main.py lines 122-137): reads the cache
file, parses the JSON text into a list of dictionaries (`loads`; a parse
failure is `json.JSONDecodeError`), and rebuilds each entry with
`from_dict`. -/
def get_stored_pourbaix_entries (from_dict : Dict → Entry)
    (loads : String → Option (List Dict)) (st : SysState) (compound : String) :
    Except String (List Entry) :=
  match openRead st (entriesPath compound) with
  | .error e => .error e
  | .ok content =>
    match loads content with
    | none => .error "JSONDecodeError"
    | some ds => .ok (ds.map from_dict)

/-- `compounds_entries_to_disk` (main.py lines 66-80): for each compound, if
`glob.glob` finds the cache file, skip it; otherwise fetch the entries
remotely and save them.  Any I/O error propagates uncaught. -/
def compounds_entries_to_disk (fetch : String → List Entry)
    (as_dict : Entry → Dict) (dumps : List Dict → String) :
    SysState → List String → Except String SysState
  | st, [] => .ok st
  | st, compound :: rest =>
    if (glob_glob st (entriesPath compound)).length > 0 then
      compounds_entries_to_disk fetch as_dict dumps st rest
    else
      let res := retrieve_pourbaix_entries fetch st compound
      match save_pourbaix_entries as_dict dumps res.1 compound res.2 with
      | .error e => .error e
      | .ok st2 => compounds_entries_to_disk fetch as_dict dumps st2 rest

/-- The entry-assembly loop of `main` (main.py lines 47-49): extend
`all_entries` with the stored entries of each compound, in list order. -/
def loadAll (from_dict : Dict → Entry) (loads : String → Option (List Dict))
    (st : SysState) : List String → Except String (List Entry)
  | [] => .ok []
  | compound :: rest =>
    match get_stored_pourbaix_entries from_dict loads st compound with
    | .error e => .error e
    | .ok es =>
      match loadAll from_dict loads st rest with
      | .error e => .error e
      | .ok more => .ok (es ++ more)

/-- A Python dict comprehension `{k: f(k) for k in ks}` as an association
list: iterate over `ks`, overwriting the binding on a repeated key (the key
keeps its original position). -/
def dictComp (ks : List String) (f : String → ℚ) : List (String × ℚ) :=
  ks.foldl (fun d k => insertA d k (f k)) []

/-- The composition dict of `main` (main.py lines 52-57):
`{compound: 1 / n_compounds for compound in compounds}` when there is more
than one compound, `{compounds[0]: 1.0}` otherwise. -/
def comp_dct_of (compounds : List String) : List (String × ℚ) :=
  if compounds.length > 1 then
    dictComp compounds (fun _ => 1 / (compounds.length : ℚ))
  else
    match compounds with
    | [] => []
    | c :: _ => [(c, 1)]

/-- The ion concentration used for every element (the literal `1e-8` of
main.py lines 55 and 58), as an exact rational. -/
def ionConcentration : ℚ := 1 / 100000000

/-- The concentration dict of `main` (main.py lines 52-58):
`{compound: 1e-8 for compound in compounds}` when there is more than one
compound, `{compounds[0]: 1e-8}` otherwise. -/
def conc_dct_of (compounds : List String) : List (String × ℚ) :=
  if compounds.length > 1 then
    dictComp compounds (fun _ => ionConcentration)
  else
    match compounds with
    | [] => []
    | c :: _ => [(c, ionConcentration)]

/-- `plot_pourbaix_diagram` (main.py lines 140-190): builds the diagram and
the plot (external, `render`), then saves the PNG as
`DIAGRAMS_DIR/<concatenated compounds>.png` — the filename is
`''.join(compound for compound in compounds)` (line 154), with no
sanitization.  The trailing interactive `plt.show()` has no further effect
on the modelled state. -/
def plot_pourbaix_diagram
    (render : List Entry → List (String × ℚ) → List (String × ℚ) → String)
    (st : SysState) (compounds : List String) (entries : List Entry)
    (comp_dict conc_dct : List (String × ℚ)) : Except String SysState :=
  openWrite st (DIAGRAMS_DIR ++ "/" ++ String.join compounds ++ ".png")
    (render entries comp_dict conc_dct)

/-- `main` (main.py lines 27-63).  The `compounds` list is the
caller-edited value hardcoded at line 36; it is the parameter here.  An
empty list prints a message and exits with status 1; otherwise the cache is
populated, all entries are loaded and concatenated, the composition and
concentration dicts are built, and the diagram is rendered; status 0. -/
def main (fetch : String → List Entry) (as_dict : Entry → Dict)
    (dumps : List Dict → String) (from_dict : Dict → Entry)
    (loads : String → Option (List Dict))
    (render : List Entry → List (String × ℚ) → List (String × ℚ) → String)
    (st : SysState) (compounds : List String) :
    Except String (SysState × Nat) :=
  if compounds.length = 0 then
    .ok ({ st with
           stdout := st.stdout ++ ["Add at least one element to the compounds list!"] }, 1)
  else
    match compounds_entries_to_disk fetch as_dict dumps st compounds with
    | .error e => .error e
    | .ok st1 =>
      match loadAll from_dict loads st1 compounds with
      | .error e => .error e
      | .ok all_entries =>
        match plot_pourbaix_diagram render st1 compounds all_entries
            (comp_dct_of compounds) (conc_dct_of compounds) with
        | .error e => .error e
        | .ok st2 => .ok (st2, 0)

/-! ## Association-list infrastructure lemmas -/


theorem lookupA_cons {β : Type} (q : String) (v : β) (rest : List (String × β))
    (k : String) :
    lookupA ((q, v) :: rest) k = if q = k then some v else lookupA rest k := rfl

theorem countA_cons {β : Type} (q : String) (v : β) (rest : List (String × β))
    (k : String) :
    countA ((q, v) :: rest) k =
      if q = k then countA rest k + 1 else countA rest k := by
  simp only [countA, List.filter_cons]
  by_cases hq : q = k
  · simp [hq]
  · simp [hq]

theorem lookupA_eq_none_iff {β : Type} (d : List (String × β)) (k : String) :
    lookupA d k = none ↔ k ∉ d.map (fun p => p.1) := by
  induction d with
  | nil => simp [lookupA]
  | cons p rest ih =>
    obtain ⟨q, v⟩ := p
    rw [lookupA_cons]
    by_cases hq : q = k
    · subst hq; simp
    · simp [hq, ih, Ne.symm hq]

theorem mem_keys_of_lookupA_some {β : Type} {d : List (String × β)}
    {k : String} {w : β} (h : lookupA d k = some w) :
    k ∈ d.map (fun p => p.1) := by
  by_contra hk
  rw [(lookupA_eq_none_iff d k).mpr hk] at h
  cases h

theorem lookupA_append_of_none {β : Type} {d : List (String × β)} {k : String}
    (l : List (String × β)) (h : lookupA d k = none) :
    lookupA (d ++ l) k = lookupA l k := by
  induction d with
  | nil => rfl
  | cons p rest ih =>
    obtain ⟨q, v⟩ := p
    rw [lookupA_cons] at h
    by_cases hq : q = k
    · rw [if_pos hq] at h; cases h
    · rw [if_neg hq] at h
      rw [List.cons_append, lookupA_cons, if_neg hq]
      exact ih h

theorem countA_eq_zero_of_lookupA_none {β : Type} {d : List (String × β)}
    {k : String} (h : lookupA d k = none) : countA d k = 0 := by
  induction d with
  | nil => rfl
  | cons p rest ih =>
    obtain ⟨q, v⟩ := p
    rw [lookupA_cons] at h
    by_cases hq : q = k
    · rw [if_pos hq] at h; cases h
    · rw [if_neg hq] at h
      rw [countA_cons, if_neg hq]
      exact ih h

theorem lookupA_map_replace_of_some {β : Type} {d : List (String × β)}
    {k : String} {w : β} (v : β) (h : lookupA d k = some w) :
    lookupA (d.map (fun p => if p.1 = k then (k, v) else p)) k = some v := by
  induction d with
  | nil => cases h
  | cons p rest ih =>
    obtain ⟨q, u⟩ := p
    rw [lookupA_cons] at h
    simp only [List.map_cons]
    by_cases hq : q = k
    · have hhead : (if (q, u).1 = k then (k, v) else (q, u)) = (k, v) := by
        simp [hq]
      rw [hhead, lookupA_cons, if_pos rfl]
    · have hhead : (if (q, u).1 = k then (k, v) else (q, u)) = (q, u) := by
        simp [hq]
      rw [if_neg hq] at h
      rw [hhead, lookupA_cons, if_neg hq]
      exact ih h

theorem lookupA_map_replace_ne {β : Type} (d : List (String × β))
    {k k' : String} (v : β) (hne : k' ≠ k) :
    lookupA (d.map (fun p => if p.1 = k then (k, v) else p)) k' =
      lookupA d k' := by
  induction d with
  | nil => rfl
  | cons p rest ih =>
    obtain ⟨q, u⟩ := p
    simp only [List.map_cons]
    by_cases hq : q = k
    · have hhead : (if (q, u).1 = k then (k, v) else (q, u)) = (k, v) := by
        simp [hq]
      rw [hhead, lookupA_cons, lookupA_cons, if_neg (Ne.symm hne),
        if_neg (fun hqk : q = k' => (Ne.symm hne) (hq ▸ hqk))]
      exact ih
    · have hhead : (if (q, u).1 = k then (k, v) else (q, u)) = (q, u) := by
        simp [hq]
      rw [hhead, lookupA_cons, lookupA_cons]
      by_cases hq' : q = k'
      · rw [if_pos hq', if_pos hq']
      · rw [if_neg hq', if_neg hq']
        exact ih

theorem lookupA_append_single_ne {β : Type} (d : List (String × β))
    {k k' : String} (v : β) (hne : k' ≠ k) :
    lookupA (d ++ [(k, v)]) k' = lookupA d k' := by
  induction d with
  | nil =>
    simp only [List.nil_append, lookupA_cons, if_neg (Ne.symm hne)]
  | cons p rest ih =>
    obtain ⟨q, u⟩ := p
    rw [List.cons_append, lookupA_cons, lookupA_cons]
    by_cases hq : q = k'
    · rw [if_pos hq, if_pos hq]
    · rw [if_neg hq, if_neg hq]
      exact ih

theorem lookupA_insertA_self {β : Type} (d : List (String × β)) (k : String)
    (v : β) : lookupA (insertA d k v) k = some v := by
  unfold insertA
  cases h : lookupA d k with
  | none =>
    rw [lookupA_append_of_none _ h, lookupA_cons, if_pos rfl]
  | some w => exact lookupA_map_replace_of_some v h

theorem lookupA_insertA_ne {β : Type} (d : List (String × β)) {k k' : String}
    (v : β) (hne : k' ≠ k) : lookupA (insertA d k v) k' = lookupA d k' := by
  unfold insertA
  cases h : lookupA d k with
  | none => exact lookupA_append_single_ne d v hne
  | some w => exact lookupA_map_replace_ne d v hne

theorem countA_append {β : Type} (d l : List (String × β)) (k : String) :
    countA (d ++ l) k = countA d k + countA l k := by
  simp [countA, List.filter_append]

theorem countA_insertA_of_none {β : Type} {d : List (String × β)} {k : String}
    (v : β) (h : lookupA d k = none) :
    countA (insertA d k v) k = countA d k + 1 := by
  unfold insertA
  rw [h, countA_append]
  simp [countA, List.filter_cons]

theorem countA_map_replace_ne {β : Type} (d : List (String × β))
    {k k' : String} (v : β) (hne : k' ≠ k) :
    countA (d.map (fun p => if p.1 = k then (k, v) else p)) k' = countA d k' := by
  induction d with
  | nil => rfl
  | cons p rest ih =>
    obtain ⟨q, u⟩ := p
    simp only [List.map_cons]
    by_cases hq : q = k
    · have hhead : (if (q, u).1 = k then (k, v) else (q, u)) = (k, v) := by
        simp [hq]
      rw [hhead, countA_cons, countA_cons, if_neg (Ne.symm hne),
        if_neg (fun hqk : q = k' => (Ne.symm hne) (hq ▸ hqk))]
      exact ih
    · have hhead : (if (q, u).1 = k then (k, v) else (q, u)) = (q, u) := by
        simp [hq]
      rw [hhead, countA_cons, countA_cons]
      by_cases hq' : q = k'
      · rw [if_pos hq', if_pos hq', ih]
      · rw [if_neg hq', if_neg hq']
        exact ih

theorem countA_insertA_ne {β : Type} (d : List (String × β)) {k k' : String}
    (v : β) (hne : k' ≠ k) : countA (insertA d k v) k' = countA d k' := by
  unfold insertA
  cases h : lookupA d k with
  | none =>
    rw [countA_append, countA_cons, if_neg (Ne.symm hne)]
    rfl
  | some w => exact countA_map_replace_ne d v hne

theorem keys_insertA_of_none {β : Type} {d : List (String × β)} {k : String}
    (v : β) (h : lookupA d k = none) :
    (insertA d k v).map (fun p => p.1) = d.map (fun p => p.1) ++ [k] := by
  unfold insertA
  rw [h, List.map_append]
  rfl

theorem keys_insertA_of_some {β : Type} {d : List (String × β)} {k : String}
    {w : β} (v : β) (h : lookupA d k = some w) :
    (insertA d k v).map (fun p => p.1) = d.map (fun p => p.1) := by
  unfold insertA
  rw [h, List.map_map]
  refine List.map_congr_left (fun p _ => ?_)
  by_cases hp : p.1 = k
  · simp [Function.comp, hp]
  · simp [Function.comp, hp]

theorem keys_insertA_nodup {β : Type} {d : List (String × β)} (k : String)
    (v : β) (h : (d.map (fun p => p.1)).Nodup) :
    ((insertA d k v).map (fun p => p.1)).Nodup := by
  cases hl : lookupA d k with
  | none =>
    rw [keys_insertA_of_none v hl]
    have hk : k ∉ d.map (fun p => p.1) := (lookupA_eq_none_iff d k).mp hl
    simp [List.nodup_append, h, hk]
  | some w => rw [keys_insertA_of_some v hl]; exact h

theorem mem_keys_insertA {β : Type} (d : List (String × β)) (k k' : String)
    (v : β) :
    k' ∈ (insertA d k v).map (fun p => p.1) ↔
      k' ∈ d.map (fun p => p.1) ∨ k' = k := by
  cases hl : lookupA d k with
  | none =>
    rw [keys_insertA_of_none v hl]
    simp
  | some w =>
    rw [keys_insertA_of_some v hl]
    constructor
    · exact fun hm => Or.inl hm
    · rintro (hm | rfl)
      · exact hm
      · exact mem_keys_of_lookupA_some hl

theorem values_insertA {β : Type} {d : List (String × β)} {f : String → β}
    (k : String) (hv : ∀ p ∈ d, p.2 = f p.1) :
    ∀ p ∈ insertA d k (f k), p.2 = f p.1 := by
  unfold insertA
  cases hl : lookupA d k with
  | none =>
    intro p hp
    rcases List.mem_append.mp hp with hp | hp
    · exact hv p hp
    · simp only [List.mem_singleton] at hp
      subst hp; rfl
  | some w =>
    intro p hp
    rcases List.mem_map.mp hp with ⟨q, hq, hpq⟩
    by_cases hk : q.1 = k
    · rw [if_pos hk] at hpq
      subst hpq; rfl
    · rw [if_neg hk] at hpq
      subst hpq; exact hv q hq


/-! ## Dict-comprehension lemmas -/

theorem lookupA_foldl_insert (f : String → ℚ) (ks : List String) :
    ∀ (acc : List (String × ℚ)) (k : String),
    lookupA (ks.foldl (fun d j => insertA d j (f j)) acc) k =
      if k ∈ ks then some (f k) else lookupA acc k := by
  induction ks with
  | nil => intro acc k; simp
  | cons j rest ih =>
    intro acc k
    rw [List.foldl_cons, ih]
    by_cases hk : k ∈ rest
    · rw [if_pos hk, if_pos (List.mem_cons_of_mem j hk)]
    · rw [if_neg hk]
      by_cases hj : k = j
      · subst hj
        rw [if_pos (List.mem_cons_self k rest), lookupA_insertA_self]
      · rw [if_neg (by simp [hj, hk]), lookupA_insertA_ne _ _ hj]

theorem keys_foldl_insert_nodup (f : String → ℚ) (ks : List String) :
    ∀ (acc : List (String × ℚ)), (acc.map (fun p => p.1)).Nodup →
    ((ks.foldl (fun d j => insertA d j (f j)) acc).map (fun p => p.1)).Nodup := by
  induction ks with
  | nil => intro acc h; exact h
  | cons j rest ih =>
    intro acc h
    rw [List.foldl_cons]
    exact ih _ (keys_insertA_nodup j (f j) h)

theorem mem_keys_foldl_insert (f : String → ℚ) (ks : List String) :
    ∀ (acc : List (String × ℚ)) (k : String),
    k ∈ (ks.foldl (fun d j => insertA d j (f j)) acc).map (fun p => p.1) ↔
      k ∈ acc.map (fun p => p.1) ∨ k ∈ ks := by
  induction ks with
  | nil => intro acc k; simp
  | cons j rest ih =>
    intro acc k
    rw [List.foldl_cons, ih, mem_keys_insertA]
    constructor
    · rintro ((hm | rfl) | hm)
      · exact Or.inl hm
      · exact Or.inr (List.mem_cons_self k rest)
      · exact Or.inr (List.mem_cons_of_mem j hm)
    · rintro (hm | hm)
      · exact Or.inl (Or.inl hm)
      · rcases List.mem_cons.mp hm with rfl | hm
        · exact Or.inl (Or.inr rfl)
        · exact Or.inr hm

theorem values_foldl_insert (f : String → ℚ) (ks : List String) :
    ∀ (acc : List (String × ℚ)), (∀ p ∈ acc, p.2 = f p.1) →
    ∀ p ∈ ks.foldl (fun d j => insertA d j (f j)) acc, p.2 = f p.1 := by
  induction ks with
  | nil => intro acc h; exact h
  | cons j rest ih =>
    intro acc h
    rw [List.foldl_cons]
    exact ih _ (values_insertA j h)

theorem foldl_insert_eq_append (f : String → ℚ) (ks : List String)
    (hnd : ks.Nodup) :
    ∀ (acc : List (String × ℚ)), (∀ k ∈ ks, k ∉ acc.map (fun p => p.1)) →
    ks.foldl (fun d j => insertA d j (f j)) acc =
      acc ++ ks.map (fun k => (k, f k)) := by
  induction ks with
  | nil => intro acc _; simp
  | cons j rest ih =>
    intro acc hdisj
    rw [List.foldl_cons]
    have hj : lookupA acc j = none :=
      (lookupA_eq_none_iff acc j).mpr (hdisj j (List.mem_cons_self j rest))
    have hins : insertA acc j (f j) = acc ++ [(j, f j)] := by
      unfold insertA; rw [hj]
    rw [hins]
    obtain ⟨hjr, hrest⟩ := List.nodup_cons.mp hnd
    rw [ih hrest _ (fun k hk => ?_), List.append_assoc]
    · rfl
    · rw [List.map_append]
      simp only [List.mem_append]
      rintro (hm | hm)
      · exact hdisj k (List.mem_cons_of_mem j hk) hm
      · simp at hm
        subst hm
        exact hjr hk

theorem dictComp_eq_map (f : String → ℚ) (ks : List String) (hnd : ks.Nodup) :
    dictComp ks f = ks.map (fun k => (k, f k)) := by
  unfold dictComp
  rw [foldl_insert_eq_append f ks hnd [] (by simp)]
  rfl

theorem lookupA_dictComp (f : String → ℚ) {ks : List String} {k : String}
    (hk : k ∈ ks) : lookupA (dictComp ks f) k = some (f k) := by
  unfold dictComp
  rw [lookupA_foldl_insert, if_pos hk]

theorem keys_dictComp_nodup (f : String → ℚ) (ks : List String) :
    ((dictComp ks f).map (fun p => p.1)).Nodup :=
  keys_foldl_insert_nodup f ks [] (by simp)

theorem mem_keys_dictComp (f : String → ℚ) (ks : List String) (k : String) :
    k ∈ (dictComp ks f).map (fun p => p.1) ↔ k ∈ ks := by
  unfold dictComp
  rw [mem_keys_foldl_insert]
  simp

theorem values_dictComp (f : String → ℚ) (ks : List String) :
    ∀ p ∈ dictComp ks f, p.2 = f p.1 :=
  values_foldl_insert f ks [] (by simp)

theorem sum_map_snd_const {v : ℚ} (d : List (String × ℚ))
    (h : ∀ p ∈ d, p.2 = v) :
    (d.map (fun p => p.2)).sum = d.length * v := by
  induction d with
  | nil => simp
  | cons p rest ih =>
    simp only [List.map_cons, List.sum_cons, List.length_cons]
    rw [h p (List.mem_cons_self p rest),
      ih (fun q hq => h q (List.mem_cons_of_mem p hq))]
    push_cast
    ring

/-! ## Path lemmas -/

theorem dropWhile_append_of_all {α : Type} (p : α → Bool) (l₁ l₂ : List α)
    (h : ∀ a ∈ l₁, p a = true) :
    List.dropWhile p (l₁ ++ l₂) = List.dropWhile p l₂ := by
  induction l₁ with
  | nil => rfl
  | cons a l ih =>
    rw [List.cons_append, List.dropWhile_cons, if_pos (h a (List.mem_cons_self a l))]
    exact ih (fun b hb => h b (List.mem_cons_of_mem a hb))

theorem dirOf_concat (d s suf : String) (hs : ('/' : Char) ∉ s.data)
    (hsuf : ('/' : Char) ∉ suf.data) :
    dirOf (d ++ "/" ++ s ++ suf) = d := by
  unfold dirOf
  have hdata : (d ++ "/" ++ s ++ suf).data =
      ((d.data ++ ['/']) ++ s.data) ++ suf.data := by
    simp [String.data_append]
  rw [hdata, List.reverse_append, List.reverse_append, List.reverse_append]
  rw [dropWhile_append_of_all _ _ _ (fun a ha => by
    have : a ≠ '/' := fun hEq => hsuf (hEq ▸ (List.mem_reverse.mp ha))
    simp [this])]
  rw [dropWhile_append_of_all _ _ _ (fun a ha => by
    have : a ≠ '/' := fun hEq => hs (hEq ▸ (List.mem_reverse.mp ha))
    simp [this])]
  have hrev : (['/'] : List Char).reverse ++ d.data.reverse =
      '/' :: d.data.reverse := by simp
  rw [hrev, List.dropWhile_cons, if_neg (by simp)]
  simp only [List.drop_succ_cons, List.drop_zero, List.reverse_reverse]

theorem entriesPath_eq (c : String) :
    entriesPath c = JSON_ENTRIES_DIR ++ "/" ++ c ++ ".json" := rfl

theorem dirOf_entriesPath (c : String) (hc : ('/' : Char) ∉ c.data) :
    dirOf (entriesPath c) = JSON_ENTRIES_DIR := by
  rw [entriesPath_eq]
  exact dirOf_concat JSON_ENTRIES_DIR c ".json" hc (by decide)

theorem entriesPath_injective {a b : String} (h : entriesPath a = entriesPath b) :
    a = b := by
  have hd : (entriesPath a).data = (entriesPath b).data := congrArg String.data h
  simp only [entriesPath, String.data_append] at hd
  have h1 := List.append_cancel_right hd
  have h2 := List.append_cancel_left h1
  cases a; cases b
  exact congrArg String.mk h2


/-! ## Run lemmas for the cache-ensure loop -/

theorem glob_of_some {st : SysState} {pat w : String}
    (h : lookupA st.files pat = some w) : glob_glob st pat = [pat] := by
  unfold glob_glob; rw [h]

theorem glob_of_none {st : SysState} {pat : String}
    (h : lookupA st.files pat = none) : glob_glob st pat = [] := by
  unfold glob_glob; rw [h]

theorem ctd_nil (fetch : String → List Entry) (as_dict : Entry → Dict)
    (dumps : List Dict → String) (st : SysState) :
    compounds_entries_to_disk fetch as_dict dumps st [] = .ok st := rfl

theorem ctd_cons_cached {st : SysState} {c w : String}
    (fetch : String → List Entry) (as_dict : Entry → Dict)
    (dumps : List Dict → String) (rest : List String)
    (h : lookupA st.files (entriesPath c) = some w) :
    compounds_entries_to_disk fetch as_dict dumps st (c :: rest) =
      compounds_entries_to_disk fetch as_dict dumps st rest := by
  simp only [compounds_entries_to_disk]
  rw [glob_of_some h]
  simp

theorem ctd_cons_fresh {st : SysState} {c : String}
    (fetch : String → List Entry) (as_dict : Entry → Dict)
    (dumps : List Dict → String) (rest : List String)
    (habs : lookupA st.files (entriesPath c) = none)
    (hdir : dirOf (entriesPath c) ∈ st.dirs) :
    compounds_entries_to_disk fetch as_dict dumps st (c :: rest) =
      compounds_entries_to_disk fetch as_dict dumps
        { dirs := st.dirs,
          files := insertA st.files (entriesPath c) (dumps ((fetch c).map as_dict)),
          fetchCalls := st.fetchCalls ++ [c],
          stdout := st.stdout } rest := by
  simp only [compounds_entries_to_disk]
  rw [glob_of_none habs]
  simp only [List.length_nil, gt_iff_lt, Nat.lt_irrefl, if_false]
  unfold retrieve_pourbaix_entries save_pourbaix_entries openWrite
  rw [if_pos hdir]

theorem ctd_cons_nodir {st : SysState} {c : String}
    (fetch : String → List Entry) (as_dict : Entry → Dict)
    (dumps : List Dict → String) (rest : List String)
    (habs : lookupA st.files (entriesPath c) = none)
    (hdir : dirOf (entriesPath c) ∉ st.dirs) :
    compounds_entries_to_disk fetch as_dict dumps st (c :: rest) =
      .error "FileNotFoundError" := by
  simp only [compounds_entries_to_disk]
  rw [glob_of_none habs]
  simp only [List.length_nil, gt_iff_lt, Nat.lt_irrefl, if_false]
  unfold retrieve_pourbaix_entries save_pourbaix_entries openWrite
  rw [if_neg hdir]

theorem ctd_run_spec (fetch : String → List Entry) (as_dict : Entry → Dict)
    (dumps : List Dict → String) :
    ∀ (compounds : List String) (st st' : SysState),
    compounds_entries_to_disk fetch as_dict dumps st compounds = .ok st' →
    st'.dirs = st.dirs ∧ st'.stdout = st.stdout ∧
    (∃ extra, st'.fetchCalls = st.fetchCalls ++ extra ∧
      ∀ c, lookupA st.files (entriesPath c) ≠ none → c ∉ extra) ∧
    (∀ c v, lookupA st.files (entriesPath c) = some v →
      lookupA st'.files (entriesPath c) = some v ∧
      countA st'.files (entriesPath c) = countA st.files (entriesPath c)) := by
  intro compounds
  induction compounds with
  | nil =>
    intro st st' h
    rw [ctd_nil] at h
    cases h
    exact ⟨rfl, rfl, ⟨[], by simp, fun c _ => List.not_mem_nil c⟩,
      fun c v hv => ⟨hv, rfl⟩⟩
  | cons c0 tl ih =>
    intro st st' h
    cases hglob : lookupA st.files (entriesPath c0) with
    | some w =>
      rw [ctd_cons_cached fetch as_dict dumps tl hglob] at h
      exact ih st st' h
    | none =>
      by_cases hdir : dirOf (entriesPath c0) ∈ st.dirs
      · rw [ctd_cons_fresh fetch as_dict dumps tl hglob hdir] at h
        set st2 : SysState :=
          { dirs := st.dirs,
            files := insertA st.files (entriesPath c0)
              (dumps ((fetch c0).map as_dict)),
            fetchCalls := st.fetchCalls ++ [c0],
            stdout := st.stdout } with hst2
        obtain ⟨hdirs, hstd, ⟨extra, hfc, hext⟩, hfiles⟩ := ih st2 st' h
        refine ⟨hdirs, hstd, ⟨c0 :: extra, ?_, ?_⟩, ?_⟩
        · rw [hfc, hst2]
          simp
        · intro c hc hmem
          have hne : c ≠ c0 := fun hEq => hc (by rw [hEq]; exact hglob)
          rcases List.mem_cons.mp hmem with hEq | hmem2
          · exact hne hEq
          · have hpne : entriesPath c ≠ entriesPath c0 :=
              fun hp => hne (entriesPath_injective hp)
            refine hext c ?_ hmem2
            rw [hst2]
            show lookupA (insertA st.files (entriesPath c0)
              (dumps ((fetch c0).map as_dict))) (entriesPath c) ≠ none
            rw [lookupA_insertA_ne _ _ hpne]
            exact hc
        · intro c v hv
          have hpne : entriesPath c ≠ entriesPath c0 := by
            intro hp
            rw [hp, hglob] at hv
            cases hv
          have h2 : lookupA st2.files (entriesPath c) = some v := by
            rw [hst2]
            show lookupA (insertA st.files (entriesPath c0)
              (dumps ((fetch c0).map as_dict))) (entriesPath c) = some v
            rw [lookupA_insertA_ne _ _ hpne]
            exact hv
          obtain ⟨ha, hb⟩ := hfiles c v h2
          refine ⟨ha, ?_⟩
          rw [hb, hst2]
          show countA (insertA st.files (entriesPath c0)
            (dumps ((fetch c0).map as_dict))) (entriesPath c) =
            countA st.files (entriesPath c)
          exact countA_insertA_ne _ _ hpne
      · rw [ctd_cons_nodir fetch as_dict dumps tl hglob hdir] at h
        cases h

theorem ctd_ok_of_dirs (fetch : String → List Entry) (as_dict : Entry → Dict)
    (dumps : List Dict → String) :
    ∀ (compounds : List String) (st : SysState),
    (∀ d ∈ compounds, dirOf (entriesPath d) ∈ st.dirs) →
    ∃ st', compounds_entries_to_disk fetch as_dict dumps st compounds = .ok st' := by
  intro compounds
  induction compounds with
  | nil => intro st _; exact ⟨st, rfl⟩
  | cons c0 tl ih =>
    intro st hdirs
    cases hglob : lookupA st.files (entriesPath c0) with
    | some w =>
      rw [ctd_cons_cached fetch as_dict dumps tl hglob]
      exact ih st (fun d hd => hdirs d (List.mem_cons_of_mem c0 hd))
    | none =>
      rw [ctd_cons_fresh fetch as_dict dumps tl hglob
        (hdirs c0 (List.mem_cons_self c0 tl))]
      exact ih _ (fun d hd => hdirs d (List.mem_cons_of_mem c0 hd))

theorem ctd_creates (fetch : String → List Entry) (as_dict : Entry → Dict)
    (dumps : List Dict → String) :
    ∀ (compounds : List String) (st : SysState) (c : String),
    c ∈ compounds →
    (∀ d ∈ compounds, dirOf (entriesPath d) ∈ st.dirs) →
    lookupA st.files (entriesPath c) = none →
    ∃ st', compounds_entries_to_disk fetch as_dict dumps st compounds = .ok st' ∧
      lookupA st'.files (entriesPath c) = some (dumps ((fetch c).map as_dict)) ∧
      countA st'.files (entriesPath c) = 1 := by
  intro compounds
  induction compounds with
  | nil => intro st c hc; cases hc
  | cons c0 tl ih =>
    intro st c hc hdirs habs
    cases hglob : lookupA st.files (entriesPath c0) with
    | some w =>
      rw [ctd_cons_cached fetch as_dict dumps tl hglob]
      have hne : c ≠ c0 := fun hEq => by rw [hEq, hglob] at habs; cases habs
      have hctl : c ∈ tl := by
        rcases List.mem_cons.mp hc with hEq | hm
        · exact absurd hEq hne
        · exact hm
      exact ih st c hctl (fun d hd => hdirs d (List.mem_cons_of_mem c0 hd)) habs
    | none =>
      have hdir0 : dirOf (entriesPath c0) ∈ st.dirs :=
        hdirs c0 (List.mem_cons_self c0 tl)
      rw [ctd_cons_fresh fetch as_dict dumps tl hglob hdir0]
      set st2 : SysState :=
        { dirs := st.dirs,
          files := insertA st.files (entriesPath c0)
            (dumps ((fetch c0).map as_dict)),
          fetchCalls := st.fetchCalls ++ [c0],
          stdout := st.stdout } with hst2
      by_cases hcc : c = c0
      · subst hcc
        have hlook2 : lookupA st2.files (entriesPath c) =
            some (dumps ((fetch c).map as_dict)) := by
          rw [hst2]
          exact lookupA_insertA_self _ _ _
        have hcount2 : countA st2.files (entriesPath c) = 1 := by
          rw [hst2]
          show countA (insertA st.files (entriesPath c)
            (dumps ((fetch c).map as_dict))) (entriesPath c) = 1
          rw [countA_insertA_of_none _ habs, countA_eq_zero_of_lookupA_none habs]
        obtain ⟨st', hok⟩ := ctd_ok_of_dirs fetch as_dict dumps tl st2
          (fun d hd => hdirs d (List.mem_cons_of_mem c hd))
        obtain ⟨_, _, _, hfiles⟩ := ctd_run_spec fetch as_dict dumps tl st2 st' hok
        obtain ⟨ha, hb⟩ := hfiles c _ hlook2
        exact ⟨st', hok, ha, by rw [hb, hcount2]⟩
      · have hpne : entriesPath c ≠ entriesPath c0 :=
          fun hp => hcc (entriesPath_injective hp)
        have habs2 : lookupA st2.files (entriesPath c) = none := by
          rw [hst2]
          show lookupA (insertA st.files (entriesPath c0)
            (dumps ((fetch c0).map as_dict))) (entriesPath c) = none
          rw [lookupA_insertA_ne _ _ hpne]
          exact habs
        have hctl : c ∈ tl := by
          rcases List.mem_cons.mp hc with hEq | hm
          · exact absurd hEq hcc
          · exact hm
        exact ih st2 c hctl
          (fun d hd => hdirs d (List.mem_cons_of_mem c0 hd)) habs2

theorem get_stored_of_lookup {st : SysState} {c content : String}
    (from_dict : Dict → Entry) (loads : String → Option (List Dict))
    (h : lookupA st.files (entriesPath c) = some content) :
    get_stored_pourbaix_entries from_dict loads st c =
      (match loads content with
       | none => .error "JSONDecodeError"
       | some ds => .ok (ds.map from_dict)) := by
  unfold get_stored_pourbaix_entries openRead
  rw [h]


theorem map_from_dict_as_dict (from_dict : Dict → Entry) (as_dict : Entry → Dict)
    (entries : List Entry) (hfd : ∀ e ∈ entries, from_dict (as_dict e) = e) :
    (entries.map as_dict).map from_dict = entries := by
  rw [List.map_map]
  conv_rhs => rw [← List.map_id entries]
  exact List.map_congr_left (fun e he => hfd e he)

theorem openWrite_dirs {st st' : SysState} {path content : String}
    (h : openWrite st path content = .ok st') : st'.dirs = st.dirs := by
  unfold openWrite at h
  by_cases hd : dirOf path ∈ st.dirs
  · rw [if_pos hd] at h; cases h; rfl
  · rw [if_neg hd] at h; cases h

instance {ε α : Type} [DecidableEq ε] [DecidableEq α] :
    DecidableEq (Except ε α) := fun x y =>
  match x, y with
  | .ok a, .ok b =>
    if h : a = b then isTrue (by rw [h])
    else isFalse (by intro hEq; cases hEq; exact h rfl)
  | .error e, .error f =>
    if h : e = f then isTrue (by rw [h])
    else isFalse (by intro hEq; cases hEq; exact h rfl)
  | .ok _, .error _ => isFalse (by intro hEq; cases hEq)
  | .error _, .ok _ => isFalse (by intro hEq; cases hEq)

/-! ## The claims -/

/-- C1: for an element identifier with no existing cache file, running the
cache-ensure operation `compounds_entries_to_disk` on a list containing it
creates exactly one new file at `pourbaix_entries/<element>.json` (no
binding for that path before, exactly one after), and that file's content
parses back (`get_stored_pourbaix_entries`) into exactly the entry
collection that was fetched for that element. -/
theorem ctd_creates_cache_file (fetch : String → List Entry)
    (as_dict : Entry → Dict) (dumps : List Dict → String)
    (from_dict : Dict → Entry) (loads : String → Option (List Dict))
    (st : SysState) (compounds : List String) (c : String)
    (hmem : c ∈ compounds)
    (hdirs : ∀ d ∈ compounds, dirOf (entriesPath d) ∈ st.dirs)
    (habsent : lookupA st.files (entriesPath c) = none)
    (hloads : loads (dumps ((fetch c).map as_dict)) =
      some ((fetch c).map as_dict))
    (hfd : ∀ e ∈ fetch c, from_dict (as_dict e) = e) :
    countA st.files (entriesPath c) = 0 ∧
    ∃ st', compounds_entries_to_disk fetch as_dict dumps st compounds = .ok st' ∧
      countA st'.files (entriesPath c) = 1 ∧
      get_stored_pourbaix_entries from_dict loads st' c = .ok (fetch c) := by
  refine ⟨countA_eq_zero_of_lookupA_none habsent, ?_⟩
  obtain ⟨st', hok, hlook, hcount⟩ :=
    ctd_creates fetch as_dict dumps compounds st c hmem hdirs habsent
  refine ⟨st', hok, hcount, ?_⟩
  rw [get_stored_of_lookup from_dict loads hlook, hloads]
  exact congrArg Except.ok (map_from_dict_as_dict from_dict as_dict (fetch c) hfd)

/-- Witness for C1: fresh cache, one element `"Fe"`, fetch returns `[7]`. -/
theorem ctd_creates_cache_file_witness :
    countA (⟨["pourbaix_entries"], [], [], []⟩ : SysState).files
      (entriesPath "Fe") = 0 ∧
    ∃ st', compounds_entries_to_disk (fun _ => ([7] : List Nat)) (fun n => n)
        (fun _ => "J") ⟨["pourbaix_entries"], [], [], []⟩ ["Fe"] = .ok st' ∧
      countA st'.files (entriesPath "Fe") = 1 ∧
      get_stored_pourbaix_entries (fun n => n)
        (fun s => if s = "J" then some [7] else none) st' "Fe" =
        .ok ((fun _ => ([7] : List Nat)) "Fe") :=
  ctd_creates_cache_file (fun _ => ([7] : List Nat)) (fun n => n)
    (fun _ => "J") (fun n => n) (fun s => if s = "J" then some [7] else none)
    ⟨["pourbaix_entries"], [], [], []⟩ ["Fe"] "Fe"
    (by decide) (by decide) (by decide) (by decide) (by decide)

/-- C2: for an element identifier whose cache file already exists, the
cache-ensure operation leaves that file's contents unchanged and performs
no remote fetch for that element: the fetch-call log gains no occurrence
of that identifier. -/
theorem ctd_cached_untouched (fetch : String → List Entry)
    (as_dict : Entry → Dict) (dumps : List Dict → String)
    (st st' : SysState) (compounds : List String) (c v : String)
    (hcached : lookupA st.files (entriesPath c) = some v)
    (hrun : compounds_entries_to_disk fetch as_dict dumps st compounds = .ok st') :
    lookupA st'.files (entriesPath c) = some v ∧
    ∃ extra, st'.fetchCalls = st.fetchCalls ++ extra ∧ c ∉ extra := by
  obtain ⟨_, _, ⟨extra, hfc, hext⟩, hfiles⟩ :=
    ctd_run_spec fetch as_dict dumps compounds st st' hrun
  refine ⟨(hfiles c v hcached).1, extra, hfc, hext c ?_⟩
  rw [hcached]
  exact fun h => Option.noConfusion h

/-- Witness for C2: `"Fe"` already cached; the run is a no-op. -/
theorem ctd_cached_untouched_witness :
    lookupA (⟨["pourbaix_entries"],
        [("pourbaix_entries/Fe.json", "cached")], [], []⟩ : SysState).files
      (entriesPath "Fe") = some "cached" ∧
    ∃ extra, (⟨["pourbaix_entries"],
        [("pourbaix_entries/Fe.json", "cached")], [], []⟩ : SysState).fetchCalls =
      (⟨["pourbaix_entries"],
        [("pourbaix_entries/Fe.json", "cached")], [], []⟩ : SysState).fetchCalls ++
        extra ∧ "Fe" ∉ extra :=
  ctd_cached_untouched (fun _ => ([] : List Nat)) (fun n => n) (fun _ => "")
    ⟨["pourbaix_entries"], [("pourbaix_entries/Fe.json", "cached")], [], []⟩
    ⟨["pourbaix_entries"], [("pourbaix_entries/Fe.json", "cached")], [], []⟩
    ["Fe"] "Fe" "cached" (by decide) (by decide)

/-- C3: serialize-then-deserialize round trip.  For an entry collection on
which the external codec is faithful (`json.loads` inverts `json.dumps` on
the serialized dictionaries, and `from_dict` inverts `as_dict` on each
entry), writing with `save_pourbaix_entries` and reading back with
`get_stored_pourbaix_entries` returns a collection equal to the original. -/
theorem save_then_load_roundtrip (as_dict : Entry → Dict)
    (dumps : List Dict → String) (from_dict : Dict → Entry)
    (loads : String → Option (List Dict)) (st : SysState) (c : String)
    (entries : List Entry)
    (hdir : dirOf (entriesPath c) ∈ st.dirs)
    (hloads : loads (dumps (entries.map as_dict)) = some (entries.map as_dict))
    (hfd : ∀ e ∈ entries, from_dict (as_dict e) = e) :
    ∃ st', save_pourbaix_entries as_dict dumps st c entries = .ok st' ∧
      get_stored_pourbaix_entries from_dict loads st' c = .ok entries := by
  refine ⟨{ st with files := (insertA st.files (entriesPath c)
    (dumps (entries.map as_dict))) }, ?_, ?_⟩
  · unfold save_pourbaix_entries openWrite
    rw [if_pos hdir]
  · rw [get_stored_of_lookup from_dict loads
      (lookupA_insertA_self st.files (entriesPath c) _), hloads]
    exact congrArg Except.ok (map_from_dict_as_dict from_dict as_dict entries hfd)

/-- Witness for C3: entries `[1, 2]` round-trip through the store. -/
theorem save_then_load_roundtrip_witness :
    ∃ st', save_pourbaix_entries (fun (n : Nat) => n) (fun _ => "J")
        ⟨["pourbaix_entries"], [], [], []⟩ "Fe" [1, 2] = .ok st' ∧
      get_stored_pourbaix_entries (fun (n : Nat) => n)
        (fun s => if s = "J" then some [1, 2] else none) st' "Fe" = .ok [1, 2] :=
  save_then_load_roundtrip (fun n => n) (fun _ => "J") (fun n => n)
    (fun s => if s = "J" then some [1, 2] else none)
    ⟨["pourbaix_entries"], [], [], []⟩ "Fe" [1, 2]
    (by decide) (by decide) (by decide)

/-- C6: with an empty compounds list, `main` prints the message and returns
exit status 1 with no other side effect: directories, files and the
fetch-call log are untouched. -/
theorem main_empty_compounds (fetch : String → List Entry)
    (as_dict : Entry → Dict) (dumps : List Dict → String)
    (from_dict : Dict → Entry) (loads : String → Option (List Dict))
    (render : List Entry → List (String × ℚ) → List (String × ℚ) → String)
    (st : SysState) :
    ∃ st', main fetch as_dict dumps from_dict loads render st [] =
        .ok (st', 1) ∧
      st'.dirs = st.dirs ∧ st'.files = st.files ∧
      st'.fetchCalls = st.fetchCalls ∧
      st'.stdout = st.stdout ++
        ["Add at least one element to the compounds list!"] :=
  ⟨_, rfl, rfl, rfl, rfl, rfl⟩

/-- C7: the orchestrator's in-memory collection is the concatenation of the
per-element stored collections, in the order the elements appear in the
caller-supplied list, with no deduplication. -/
theorem loadAll_is_ordered_concat (from_dict : Dict → Entry)
    (loads : String → Option (List Dict)) (st : SysState)
    (compounds : List String) (E : String → List Entry)
    (h : ∀ c ∈ compounds,
      get_stored_pourbaix_entries from_dict loads st c = .ok (E c)) :
    loadAll from_dict loads st compounds = .ok ((compounds.map E).flatten) := by
  induction compounds with
  | nil => rfl
  | cons c0 tl ih =>
    simp only [loadAll]
    rw [h c0 (List.mem_cons_self c0 tl),
      ih (fun c hc => h c (List.mem_cons_of_mem c0 hc))]
    rfl

/-- Witness for C7: elements `["Fe", "O"]` with overlapping stored
collections `[1, 2]` and `[2, 3]`; the result keeps the duplicate `2`. -/
theorem loadAll_is_ordered_concat_witness :
    loadAll (fun (n : Nat) => n)
      (fun s => if s = "a" then some [1, 2] else
        if s = "b" then some [2, 3] else none)
      ⟨["pourbaix_entries"], [("pourbaix_entries/Fe.json", "a"),
        ("pourbaix_entries/O.json", "b")], [], []⟩ ["Fe", "O"] =
      .ok (((["Fe", "O"] : List String).map
        (fun s => if s = "Fe" then [1, 2] else [2, 3])).flatten) :=
  loadAll_is_ordered_concat (fun n => n)
    (fun s => if s = "a" then some [1, 2] else
      if s = "b" then some [2, 3] else none)
    ⟨["pourbaix_entries"], [("pourbaix_entries/Fe.json", "a"),
      ("pourbaix_entries/O.json", "b")], [], []⟩ ["Fe", "O"]
    (fun s => if s = "Fe" then [1, 2] else [2, 3]) (by decide)

/-- C8: the plot renderer writes the image to
`pourbaix_diagrams/<concatenation of the element identifiers in input
order>.png` — no sanitization, for arbitrary identifier strings. -/
theorem plot_writes_concat_filename
    (render : List Entry → List (String × ℚ) → List (String × ℚ) → String)
    (st : SysState) (compounds : List String) (entries : List Entry)
    (cd ccd : List (String × ℚ))
    (hdir : dirOf (DIAGRAMS_DIR ++ "/" ++ String.join compounds ++ ".png")
      ∈ st.dirs) :
    ∃ st', plot_pourbaix_diagram render st compounds entries cd ccd = .ok st' ∧
      lookupA st'.files
        (DIAGRAMS_DIR ++ "/" ++ String.join compounds ++ ".png") =
        some (render entries cd ccd) ∧
      st'.dirs = st.dirs := by
  refine ⟨{ st with files := (insertA st.files
    (DIAGRAMS_DIR ++ "/" ++ String.join compounds ++ ".png")
    (render entries cd ccd)) }, ?_, ?_, rfl⟩
  · unfold plot_pourbaix_diagram openWrite
    rw [if_pos hdir]
  · exact lookupA_insertA_self _ _ _

/-- Witness for C8: elements `["Fe", "O"]` produce the file
`pourbaix_diagrams/FeO.png`. -/
theorem plot_writes_concat_filename_witness :
    ∃ st', plot_pourbaix_diagram (fun (_ : List Nat) _ _ => "png")
        ⟨["pourbaix_diagrams"], [], [], []⟩ ["Fe", "O"] [] [] [] = .ok st' ∧
      lookupA st'.files "pourbaix_diagrams/FeO.png" = some "png" ∧
      st'.dirs = ["pourbaix_diagrams"] :=
  plot_writes_concat_filename (fun _ _ _ => "png")
    ⟨["pourbaix_diagrams"], [], [], []⟩ ["Fe", "O"] [] [] [] (by decide)


/-- C4 counterexample: with the duplicate list `["Fe", "Fe"]` (N = 2) the
composition dict is `{"Fe": 1/2}`, so its values sum to `1/2`, not `1`;
the claim as stated fails. -/
theorem comp_dct_claim_counterexample :
    ¬ ((∀ p ∈ comp_dct_of ["Fe", "Fe"],
          p.2 = 1 / (((["Fe", "Fe"] : List String).length : ℚ))) ∧
       ((comp_dct_of ["Fe", "Fe"]).map (fun p => p.2)).sum = 1) := by
  intro h
  have hs := h.2
  norm_num [comp_dct_of, dictComp, insertA, lookupA] at hs

/-- C4 (amended): for a caller-supplied element list with no duplicate
identifiers, every value of the composition dict equals `1/N` and the
values sum to `1` (for `N = 1` the single value is `1 = 1/1`). -/
theorem comp_dct_uniform (compounds : List String) (hnd : compounds.Nodup)
    (hne : compounds ≠ []) :
    (∀ p ∈ comp_dct_of compounds, p.2 = 1 / (compounds.length : ℚ)) ∧
    ((comp_dct_of compounds).map (fun p => p.2)).sum = 1 := by
  have hlen0 : (compounds.length : ℚ) ≠ 0 := by
    have hpos : 0 < compounds.length := List.length_pos.mpr hne
    exact_mod_cast Nat.pos_iff_ne_zero.mp hpos
  by_cases hlen : compounds.length > 1
  · unfold comp_dct_of
    rw [if_pos hlen, dictComp_eq_map _ _ hnd]
    have hval : ∀ p ∈ compounds.map
        (fun k => (k, (1 : ℚ) / (compounds.length : ℚ))),
        p.2 = 1 / (compounds.length : ℚ) := by
      intro p hp
      rcases List.mem_map.mp hp with ⟨k, _, rfl⟩
      rfl
    refine ⟨hval, ?_⟩
    rw [sum_map_snd_const _ hval, List.length_map]
    rw [mul_one_div, div_self hlen0]
  · have h1 : compounds.length = 1 := by
      have hpos : 0 < compounds.length := List.length_pos.mpr hne
      omega
    obtain ⟨c, rfl⟩ := List.length_eq_one.mp h1
    refine ⟨?_, ?_⟩
    · intro p hp
      simp only [comp_dct_of, List.length_singleton] at hp
      norm_num at hp
      simp [hp]
    · simp [comp_dct_of]

/-- Witness for C4 (amended) at the duplicate-free list `["Fe", "O"]`. -/
theorem comp_dct_uniform_witness :
    (∀ p ∈ comp_dct_of ["Fe", "O"],
      p.2 = 1 / (((["Fe", "O"] : List String).length : ℚ))) ∧
    ((comp_dct_of ["Fe", "O"]).map (fun p => p.2)).sum = 1 :=
  comp_dct_uniform ["Fe", "O"] (by decide) (by decide)

/-- C5: the concentration dict maps every requested element identifier to
exactly `1e-8` (`ionConcentration = 1/100000000`), in the single-element
and the multi-element branch alike. -/
theorem conc_dct_const_value (compounds : List String) (c : String)
    (hc : c ∈ compounds) :
    lookupA (conc_dct_of compounds) c = some ionConcentration := by
  unfold conc_dct_of
  by_cases hlen : compounds.length > 1
  · rw [if_pos hlen]
    exact lookupA_dictComp _ hc
  · rw [if_neg hlen]
    cases compounds with
    | nil => cases hc
    | cons c0 rest =>
      have hrest : rest = [] := by
        by_contra hr
        have hposr : 0 < rest.length := List.length_pos.mpr hr
        have : 1 < (c0 :: rest).length := by
          simp only [List.length_cons]
          omega
        exact hlen this
      subst hrest
      have hcc : c = c0 := by simpa using hc
      subst hcc
      simp [lookupA]

/-- Witness for C5 at `["Fe", "O"]` and the element `"Fe"`. -/
theorem conc_dct_const_value_witness :
    lookupA (conc_dct_of ["Fe", "O"]) "Fe" = some ionConcentration :=
  conc_dct_const_value ["Fe", "O"] "Fe" (by decide)

/-- C9: with duplicate identifiers (length `N ≥ 2`, fewer distinct keys),
the composition dict has one key per distinct identifier, every value is
`1/N`, and the values sum to `k/N < 1` where `k` is the number of distinct
identifiers, so the sum is not `1`. -/
theorem comp_dct_duplicate_elements (compounds : List String)
    (h2 : 2 ≤ compounds.length) (hdup : ¬ compounds.Nodup) :
    ((comp_dct_of compounds).map (fun p => p.1)).Nodup ∧
    (∀ k, k ∈ (comp_dct_of compounds).map (fun p => p.1) ↔ k ∈ compounds) ∧
    (∀ p ∈ comp_dct_of compounds, p.2 = 1 / (compounds.length : ℚ)) ∧
    ((comp_dct_of compounds).map (fun p => p.2)).sum =
      ((comp_dct_of compounds).length : ℚ) / (compounds.length : ℚ) ∧
    (comp_dct_of compounds).length < compounds.length ∧
    ((comp_dct_of compounds).map (fun p => p.2)).sum ≠ 1 := by
  have hlen : compounds.length > 1 := by omega
  have hcomp : comp_dct_of compounds =
      dictComp compounds (fun _ => 1 / (compounds.length : ℚ)) := by
    unfold comp_dct_of
    rw [if_pos hlen]
  set f : String → ℚ := fun _ => 1 / (compounds.length : ℚ) with hf
  have hkeys := keys_dictComp_nodup f compounds
  have hmem := mem_keys_dictComp f compounds
  have hval : ∀ p ∈ dictComp compounds f, p.2 = 1 / (compounds.length : ℚ) :=
    fun p hp => values_dictComp f compounds p hp
  have hsum : ((dictComp compounds f).map (fun p => p.2)).sum =
      ((dictComp compounds f).length : ℚ) / (compounds.length : ℚ) := by
    rw [sum_map_snd_const _ hval, mul_one_div]
  have hKfin : ((dictComp compounds f).map (fun p => p.1)).toFinset =
      compounds.toFinset := by
    apply Finset.ext
    intro a
    rw [List.mem_toFinset, List.mem_toFinset]
    exact hmem a
  have hlen_eq : ((dictComp compounds f).map (fun p => p.1)).length =
      compounds.dedup.length := by
    rw [← List.toFinset_card_of_nodup hkeys, hKfin, List.card_toFinset]
  have hdl : compounds.dedup.length < compounds.length := by
    rcases Nat.lt_or_ge compounds.dedup.length compounds.length with hx | hx
    · exact hx
    · exact absurd ((List.dedup_sublist compounds).eq_of_length
        (le_antisymm (List.dedup_sublist compounds).length_le hx) ▸
          List.nodup_dedup compounds) hdup
  have hlt : (dictComp compounds f).length < compounds.length := by
    have := hlen_eq
    rw [List.length_map] at this
    omega
  have hne1 : ((dictComp compounds f).map (fun p => p.2)).sum ≠ 1 := by
    rw [hsum]
    have hltq : ((dictComp compounds f).length : ℚ) < (compounds.length : ℚ) :=
      by exact_mod_cast hlt
    have hposq : (0 : ℚ) < (compounds.length : ℚ) := by
      have : 0 < compounds.length := by omega
      exact_mod_cast this
    exact ne_of_lt ((div_lt_one hposq).mpr hltq)
  rw [hcomp]
  exact ⟨hkeys, hmem, hval, hsum, hlt, hne1⟩

/-- Witness for C9 at the duplicate list `["Fe", "Fe"]`. -/
theorem comp_dct_duplicate_elements_witness :
    ((comp_dct_of ["Fe", "Fe"]).map (fun p => p.1)).Nodup ∧
    (∀ k, k ∈ (comp_dct_of ["Fe", "Fe"]).map (fun p => p.1) ↔
      k ∈ (["Fe", "Fe"] : List String)) ∧
    (∀ p ∈ comp_dct_of ["Fe", "Fe"],
      p.2 = 1 / (((["Fe", "Fe"] : List String).length : ℚ))) ∧
    ((comp_dct_of ["Fe", "Fe"]).map (fun p => p.2)).sum =
      ((comp_dct_of ["Fe", "Fe"]).length : ℚ) /
        (((["Fe", "Fe"] : List String).length : ℚ)) ∧
    (comp_dct_of ["Fe", "Fe"]).length < (["Fe", "Fe"] : List String).length ∧
    ((comp_dct_of ["Fe", "Fe"]).map (fun p => p.2)).sum ≠ 1 :=
  comp_dct_duplicate_elements ["Fe", "Fe"] (by decide) (by decide)

/-- C10: the program never creates its two directories.  With the cache
directory absent, the glob presence check silently reports a miss and the
cache-ensure operation fails with an uncaught `FileNotFoundError`; with the
diagrams directory absent, saving the PNG fails the same way; and every
successful run of the cache-ensure loop or of `main` leaves the set of
directories exactly as it was. -/
theorem no_directory_creation (fetch : String → List Entry)
    (as_dict : Entry → Dict) (dumps : List Dict → String)
    (from_dict : Dict → Entry) (loads : String → Option (List Dict))
    (render : List Entry → List (String × ℚ) → List (String × ℚ) → String)
    (st : SysState) (c : String) (compounds : List String)
    (entries : List Entry) (cd ccd : List (String × ℚ))
    (hnoc : JSON_ENTRIES_DIR ∉ st.dirs) (hnod : DIAGRAMS_DIR ∉ st.dirs)
    (hcslash : ('/' : Char) ∉ c.data)
    (hjslash : ('/' : Char) ∉ (String.join compounds).data)
    (habs : lookupA st.files (entriesPath c) = none) :
    glob_glob st (entriesPath c) = [] ∧
    compounds_entries_to_disk fetch as_dict dumps st [c] =
      .error "FileNotFoundError" ∧
    plot_pourbaix_diagram render st compounds entries cd ccd =
      .error "FileNotFoundError" ∧
    (∀ cs st', compounds_entries_to_disk fetch as_dict dumps st cs = .ok st' →
      st'.dirs = st.dirs) ∧
    (∀ cs st' code,
      main fetch as_dict dumps from_dict loads render st cs = .ok (st', code) →
      st'.dirs = st.dirs) := by
  have hdirc : dirOf (entriesPath c) ∉ st.dirs := by
    rw [dirOf_entriesPath c hcslash]
    exact hnoc
  refine ⟨glob_of_none habs, ctd_cons_nodir fetch as_dict dumps [] habs hdirc,
    ?_, ?_, ?_⟩
  · unfold plot_pourbaix_diagram openWrite
    rw [if_neg ?_]
    rw [dirOf_concat DIAGRAMS_DIR (String.join compounds) ".png" hjslash
      (by decide)]
    exact hnod
  · intro cs st' hrun
    exact (ctd_run_spec fetch as_dict dumps cs st st' hrun).1
  · intro cs st' code h
    unfold main at h
    by_cases hcs : cs.length = 0
    · rw [if_pos hcs] at h
      cases h
      rfl
    · rw [if_neg hcs] at h
      split at h
      next e hctd => cases h
      next st1 hctd =>
        split at h
        next e hload => cases h
        next allE hload =>
          split at h
          next e hplot => cases h
          next st2 hplot =>
            cases h
            have h1 : st1.dirs = st.dirs :=
              (ctd_run_spec fetch as_dict dumps cs st st1 hctd).1
            have h2 : st'.dirs = st1.dirs := openWrite_dirs hplot
            rw [h2, h1]

/-- Witness for C10: empty filesystem (no directories at all), element
`"Fe"`. -/
theorem no_directory_creation_witness :
    glob_glob (⟨[], [], [], []⟩ : SysState) (entriesPath "Fe") = [] ∧
    compounds_entries_to_disk (fun _ => ([7] : List Nat)) (fun n => n)
      (fun _ => "J") ⟨[], [], [], []⟩ ["Fe"] = .error "FileNotFoundError" ∧
    plot_pourbaix_diagram (fun (_ : List Nat) _ _ => "png")
      ⟨[], [], [], []⟩ ["Fe"] [] [] [] = .error "FileNotFoundError" ∧
    (∀ cs st', compounds_entries_to_disk (fun _ => ([7] : List Nat))
      (fun n => n) (fun _ => "J") (⟨[], [], [], []⟩ : SysState) cs = .ok st' →
      st'.dirs = (⟨[], [], [], []⟩ : SysState).dirs) ∧
    (∀ cs st' code,
      main (fun _ => ([7] : List Nat)) (fun n => n) (fun _ => "J")
        (fun n => n) (fun _ => none) (fun _ _ _ => "png")
        (⟨[], [], [], []⟩ : SysState) cs = .ok (st', code) →
      st'.dirs = (⟨[], [], [], []⟩ : SysState).dirs) :=
  no_directory_creation (fun _ => ([7] : List Nat)) (fun n => n)
    (fun _ => "J") (fun n => n) (fun _ => none) (fun _ _ _ => "png")
    ⟨[], [], [], []⟩ "Fe" ["Fe"] [] [] []
    (by decide) (by decide) (by decide) (by decide) (by decide)

end Pourbaix
